import Mathlib

/-!
FlyweightCircularBuffer.

A shallow embedding of `src/flyweight_circular_buffer.h` and the properties of
its public operations.

Modelling conventions.

* `int` is a 32-bit two's complement integer.  Signed overflow has no defined
  behaviour: `++mElementIdx` at `INT_MAX` is an error result of `Insert`, so
  a state is reached by at most `INT_MAX` insertions.  The index arithmetic
  of `Query` is written with the reduction `wrapInt`; in a reached state and
  for an index in the range of `int` it never leaves that range.  `%` on
  `int` is the truncating remainder `Int.tmod`.
* `std::unordered_map<T, int>` is an association list with pairwise distinct
  keys; `emplace`, `find`, `erase`, `count`, `size` and `at` are the functions
  `emplace`, `mapFind`, `mapErase`, `mapFind`, `List.length` and `mapFind`.
  The stored counts are kept as `Int` without a bound.  A stored count lies
  between 2 and `mSize + 1` (`Reached.stored_count_bounds`) and is at most
  one higher inside `Insert`, so for a capacity of at most `INT_MAX - 2` no
  count leaves the range of `int`; the theorems about the value of a stored
  count and about a single call of `Insert` in a given state carry that
  bound on the capacity.
* The ring `std::vector<const T*>` is a list of optional values: `nullptr` is
  `none`, and a pointer to the key of a map node is the key it points to (the
  nodes of a `std::unordered_map` do not move).
* An exception, a failed `assert` and an operation without defined behaviour
  (subscript out of bounds, remainder by zero, dereferencing `nullptr`, use of
  an erased map node) are the error results of `Except Failure`.
-/

namespace FlyweightCircularBuffer

/-- The ways an operation can end without a result. -/
inductive Failure where
  /-- `std::out_of_range`, thrown by `Query`, `std::vector::at` and `std::unordered_map::at`. -/
  | outOfRange
  /-- `std::length_error`, thrown by the `std::vector` constructor. -/
  | lengthError
  /-- The `assert` of `Insert` failed. -/
  | brokenInvariant
  /-- The operation has no defined behaviour. -/
  | undefinedBehaviour
  deriving DecidableEq, Repr

/-- The largest value of `int`. -/
def intMax : Int := 2147483647

/-- Reduction of an integer to the range of `int` (two's complement). -/
def wrapInt (x : Int) : Int := (x + 2147483648) % 4294967296 - 2147483648

/-- The value stored for key `x`: `find` followed by reading `second`. -/
def mapFind {T : Type} [DecidableEq T] : List (T × Int) → T → Option Int
  | [], _ => none
  | (k, c) :: m, x => if k = x then some c else mapFind m x

/-- The map after `emplace(x, c)`: a node is added only when the key is absent. -/
def emplace {T : Type} [DecidableEq T] (m : List (T × Int)) (x : T) (c : Int) : List (T × Int) :=
  match mapFind m x with
  | some _ => m
  | none => m ++ [(x, c)]

/-- The map after the count of key `x` is replaced by `f` of it. -/
def mapUpdate {T : Type} [DecidableEq T] (m : List (T × Int)) (x : T) (f : Int → Int) :
    List (T × Int) :=
  m.map (fun p => if p.1 = x then (p.1, f p.2) else p)

/-- The map after `erase` of the node with key `x`. -/
def mapErase {T : Type} [DecidableEq T] (m : List (T × Int)) (x : T) : List (T × Int) :=
  m.filter (fun p => decide (p.1 ≠ x))

end FlyweightCircularBuffer

/-- The data members of `FlyweightCircularBuffer<T>`. -/
structure FlyweightCircularBuffer (T : Type) where
  /-- The capacity `const int mSize`. -/
  mSize : Int
  /-- The insertion counter `int mElementIdx`. -/
  mElementIdx : Int
  /-- The map from a stored value to its count. -/
  mReferenceCountingMap : List (T × Int)
  /-- The ring of pointers to the keys of the map. -/
  mCircularBuffer : List (Option T)

namespace FlyweightCircularBuffer

variable {T : Type} [DecidableEq T]

/-- The constructor `FlyweightCircularBuffer(int size)`: a vector of `size` null pointers;
a negative `size` converts to a length above `max_size()`. -/
def new (size : Int) : Except Failure (FlyweightCircularBuffer T) :=
  if size < 0 then .error .lengthError
  else .ok
    { mSize := size
      mElementIdx := 0
      mReferenceCountingMap := []
      mCircularBuffer := List.replicate size.toNat none }

/-- The last two statements of `Insert`: the write of the slot and `++mElementIdx`, which is
signed overflow when the counter is `INT_MAX`. -/
def storeAndAdvance (s : FlyweightCircularBuffer T) (m : List (T × Int)) (slot : Nat)
    (element : T) : Except Failure (FlyweightCircularBuffer T) :=
  if s.mElementIdx = intMax then .error .undefinedBehaviour
  else
    .ok { s with
          mReferenceCountingMap := m
          mCircularBuffer := s.mCircularBuffer.set slot (some element)
          mElementIdx := s.mElementIdx + 1 }

/-- The member function `Insert`. -/
def Insert (s : FlyweightCircularBuffer T) (element : T) :
    Except Failure (FlyweightCircularBuffer T) :=
  let m1 := emplace s.mReferenceCountingMap element 1
  let m2 := mapUpdate m1 element (fun c => c + 1)
  if s.mSize = 0 then .error .undefinedBehaviour
  else
    let slot := Int.tmod s.mElementIdx s.mSize
    if slot < 0 then .error .undefinedBehaviour
    else
      match s.mCircularBuffer[slot.toNat]? with
      | none => .error .undefinedBehaviour
      | some none => storeAndAdvance s m2 slot.toNat element
      | some (some oldestElement) =>
        match mapFind m2 oldestElement with
        | none => .error .brokenInvariant
        | some c =>
          if c - 1 = 1 then
            if oldestElement = element then .error .undefinedBehaviour
            else storeAndAdvance s (mapErase m2 oldestElement) slot.toNat element
          else
            storeAndAdvance s (mapUpdate m2 oldestElement (fun d => d - 1)) slot.toNat element

/-- The member function `Query`. -/
def Query (s : FlyweightCircularBuffer T) (idx : Int) : Except Failure T :=
  if idx ≥ min s.mSize s.mElementIdx then .error .outOfRange
  else
    let firstIdx := max (wrapInt (s.mElementIdx - s.mSize)) 0
    if s.mSize = 0 then .error .undefinedBehaviour
    else
      let bufferIdx := Int.tmod (wrapInt (firstIdx + idx)) s.mSize
      if bufferIdx < 0 then .error .outOfRange
      else
        match s.mCircularBuffer[bufferIdx.toNat]? with
        | none => .error .outOfRange
        | some none => .error .undefinedBehaviour
        | some (some v) => .ok v

/-- The member function `Contains`. -/
def Contains (s : FlyweightCircularBuffer T) (element : T) : Bool :=
  (mapFind s.mReferenceCountingMap element).isSome

/-- The member function `DistinctObjectCount`. -/
def DistinctObjectCount (s : FlyweightCircularBuffer T) : Int :=
  wrapInt s.mReferenceCountingMap.length

/-- The member function `NumberOfElements`. -/
def NumberOfElements (s : FlyweightCircularBuffer T) : Int :=
  min s.mElementIdx s.mSize

/-- The member function `Size`. -/
def Size (s : FlyweightCircularBuffer T) : Int := s.mSize

/-- The member function `CountOccurrences`; `std::unordered_map::at` throws on an absent key. -/
def CountOccurrences (s : FlyweightCircularBuffer T) (element : T) : Except Failure Int :=
  match mapFind s.mReferenceCountingMap element with
  | some c => .ok c
  | none => .error .outOfRange

/-- The calls `Insert(v)` for the values of a list, in order. -/
def insertAll (s : FlyweightCircularBuffer T) : List T → Except Failure (FlyweightCircularBuffer T)
  | [] => .ok s
  | v :: vs =>
    match Insert s v with
    | .ok s1 => insertAll s1 vs
    | .error e => .error e

/-- A buffer constructed with capacity `size`, followed by the insertion of `vs`. -/
def run (size : Int) (vs : List T) : Except Failure (FlyweightCircularBuffer T) :=
  match new size with
  | .ok s => insertAll s vs
  | .error e => .error e

/-- The last `min k N` values of a sequence of `k` inserted values. -/
def window (N : Nat) (vs : List T) : List T := vs.drop (vs.length - N)

/-- The number of ring slots that are not null. -/
def occupiedSlots (s : FlyweightCircularBuffer T) : Nat :=
  (s.mCircularBuffer.filter (fun p => p.isSome)).length

/-- The sum of `CountOccurrences(v)` over the values `v` that are keys of the map. -/
def sumOfCountOccurrences (s : FlyweightCircularBuffer T) : Int :=
  (s.mReferenceCountingMap.map (fun p =>
    match CountOccurrences s p.1 with
    | .ok c => c
    | .error _ => 0)).sum

/-- The map `m` holds exactly the values of the list `l`, each with one more than the number
of its occurrences in `l`. -/
def Counts (m : List (T × Int)) (l : List T) : Prop :=
  ∀ x, mapFind m x = if l.count x = 0 then none else some (1 + (l.count x : Int))

/-- The description of the state of a buffer of capacity `N` after the insertion of `vs`. -/
structure Reached (N : Nat) (vs : List T) (s : FlyweightCircularBuffer T) : Prop where
  /-- The capacity is `N`. -/
  size : s.mSize = N
  /-- The counter is the number of insertions. -/
  counter : s.mElementIdx = (vs.length : Int)
  /-- The ring has `N` slots. -/
  ringLength : s.mCircularBuffer.length = N
  /-- Each of the last `N` inserted values is in the slot of its insertion number. -/
  ringRecent : ∀ (m : Nat) (hm : m < vs.length), vs.length ≤ m + N →
    s.mCircularBuffer[m % N]? = some (some vs[m])
  /-- The slots not yet written are null. -/
  ringEmpty : ∀ j : Nat, vs.length ≤ j → j < N → s.mCircularBuffer[j]? = some none
  /-- The keys of the map are pairwise distinct. -/
  keys : (s.mReferenceCountingMap.map Prod.fst).Nodup
  /-- The map counts the values of the window. -/
  counts : Counts s.mReferenceCountingMap (window N vs)
  /-- The number of insertions has not taken the counter past `INT_MAX`. -/
  span : (vs.length : Int) ≤ intMax
  /-- The slots that are not null are as many as the values of the window. -/
  occupied : occupiedSlots s = min vs.length N

end FlyweightCircularBuffer

namespace FlyweightCircularBuffer

variable {T : Type} [DecidableEq T]

/-! ## Arithmetic of `int` -/

@[simp] theorem mapFind_nil (y : T) : mapFind ([] : List (T × Int)) y = none := rfl

@[simp] theorem mapFind_cons (k : T) (c : Int) (m : List (T × Int)) (y : T) :
    mapFind ((k, c) :: m) y = if k = y then some c else mapFind m y := rfl

theorem mapFind_append (m l : List (T × Int)) (y : T) :
    mapFind (m ++ l) y = match mapFind m y with
      | some d => some d
      | none => mapFind l y := by
  induction m with
  | nil => simp
  | cons p m ih =>
    obtain ⟨k, c⟩ := p
    by_cases h : k = y
    · simp [h]
    · simp [h, ih]

theorem mapFind_emplace (m : List (T × Int)) (x y : T) (c : Int) :
    mapFind (emplace m x c) y =
      if x = y then some ((mapFind m x).getD c) else mapFind m y := by
  unfold emplace
  cases hx : mapFind m x with
  | some d =>
    by_cases h : x = y
    · subst h; simp [hx]
    · simp [h]
  | none =>
    by_cases h : x = y
    · subst h; simp [mapFind_append, hx]
    · simp only [mapFind_append, mapFind_cons, mapFind_nil, h, if_false]
      cases mapFind m y <;> rfl

theorem mapFind_mapUpdate (m : List (T × Int)) (x y : T) (f : Int → Int) :
    mapFind (mapUpdate m x f) y =
      if x = y then (mapFind m x).map f else mapFind m y := by
  induction m with
  | nil => simp [mapUpdate]
  | cons p m ih =>
    obtain ⟨k, c⟩ := p
    have hcons : mapUpdate ((k, c) :: m) x f =
        (if k = x then (k, f c) else (k, c)) :: mapUpdate m x f := rfl
    rw [hcons]
    by_cases hk : k = x
    · subst hk
      by_cases hy : k = y
      · simp [hy]
      · simp [hy, ih]
    · rw [if_neg hk, mapFind_cons, ih]
      by_cases hy : x = y
      · subst hy; simp [hk]
      · simp [hy]

theorem mapFind_mapErase (m : List (T × Int)) (x y : T) :
    mapFind (mapErase m x) y = if x = y then none else mapFind m y := by
  induction m with
  | nil => simp [mapErase]
  | cons p m ih =>
    obtain ⟨k, c⟩ := p
    by_cases hk : k = x
    · have hcons : mapErase ((k, c) :: m) x = mapErase m x := by
        simp [mapErase, hk]
      rw [hcons, ih]
      subst hk
      by_cases hy : k = y <;> simp [hy]
    · have hcons : mapErase ((k, c) :: m) x = (k, c) :: mapErase m x := by
        simp [mapErase, hk]
      rw [hcons, mapFind_cons, ih]
      by_cases hy : x = y
      · subst hy; simp [hk]
      · simp [hy]

theorem mem_keys_iff (m : List (T × Int)) (x : T) :
    x ∈ m.map Prod.fst ↔ mapFind m x ≠ none := by
  induction m with
  | nil => simp
  | cons p m ih =>
    obtain ⟨k, c⟩ := p
    by_cases h : k = x
    · simp [h]
    · have h2 : ¬ x = k := fun e => h e.symm
      simp only [List.map_cons, List.mem_cons, h2, false_or, mapFind_cons, h, if_false]
      exact ih

theorem keys_mapUpdate (m : List (T × Int)) (x : T) (f : Int → Int) :
    (mapUpdate m x f).map Prod.fst = m.map Prod.fst := by
  unfold mapUpdate
  rw [List.map_map]
  apply List.map_congr_left
  intro p _
  by_cases h : p.1 = x <;> simp [h]

theorem keys_mapErase_nodup (m : List (T × Int)) (x : T) (h : (m.map Prod.fst).Nodup) :
    ((mapErase m x).map Prod.fst).Nodup := by
  unfold mapErase
  exact (List.Sublist.map Prod.fst (List.filter_sublist m)).nodup h

theorem keys_emplace_nodup (m : List (T × Int)) (x : T) (c : Int) (h : (m.map Prod.fst).Nodup) :
    ((emplace m x c).map Prod.fst).Nodup := by
  unfold emplace
  cases hx : mapFind m x with
  | some d => exact h
  | none =>
    have hnot : x ∉ m.map Prod.fst := by
      rw [mem_keys_iff]; simp [hx]
    simp only [List.map_append, List.map_cons, List.map_nil]
    rw [List.nodup_append]
    refine ⟨h, List.nodup_singleton x, ?_⟩
    intro a ha hb
    rw [List.mem_singleton] at hb
    exact hnot (hb ▸ ha)

/-! ## The ring subscript of `Insert` -/

theorem slot_eq (N k : Nat) (hN : 1 ≤ N) :
    Int.tmod (k : Int) N = ((k % N : Nat) : Int) := by
  rw [Int.tmod_eq_emod (by omega) (by omega)]
  push_cast; rfl

/-! ## The window -/

omit [DecidableEq T] in
theorem window_snoc_lt (N : Nat) (vs : List T) (v : T) (h : vs.length < N) :
    window N vs = vs ∧ window N (vs ++ [v]) = vs ++ [v] := by
  unfold window
  constructor
  · rw [Nat.sub_eq_zero_of_le h.le]; rfl
  · rw [Nat.sub_eq_zero_of_le (by simp; omega)]; rfl

omit [DecidableEq T] in
theorem window_snoc_ge (N : Nat) (vs : List T) (v : T) (hN : 1 ≤ N) (h : N ≤ vs.length) :
    ∃ (hm : vs.length - N < vs.length) (t : List T),
      window N vs = vs[vs.length - N] :: t ∧ window N (vs ++ [v]) = t ++ [v] := by
  have hm : vs.length - N < vs.length := by omega
  refine ⟨hm, vs.drop (vs.length - N + 1), ?_, ?_⟩
  · unfold window
    exact List.drop_eq_getElem_cons hm
  · unfold window
    have e : (vs ++ [v]).length - N = vs.length - N + 1 := by simp; omega
    rw [e, List.drop_append_of_le_length (by omega)]

omit [DecidableEq T] in
theorem window_length (N : Nat) (vs : List T) : (window N vs).length = min vs.length N := by
  unfold window; simp; omega

/-! ## Recording and releasing a value -/

theorem Counts.record {m : List (T × Int)} {l : List T} (h : Counts m l) (v : T) :
    Counts (mapUpdate (emplace m v 1) v (fun c => c + 1)) (l ++ [v]) := by
  intro y
  rw [mapFind_mapUpdate, mapFind_emplace]
  by_cases hy : v = y
  · subst hy
    have hv := h v
    simp only [if_true, List.count_append, List.count_singleton_self, Option.map_some']
    by_cases h0 : l.count v = 0
    · rw [if_pos h0] at hv; simp [hv, h0]
    · rw [if_neg h0] at hv
      simp only [hv, Option.getD_some]
      rw [if_neg (by omega)]
      exact congrArg some (by omega)
  · have hyv : ¬ (v == y) = true := by simpa using hy
    simp only [if_neg hy, List.count_append, List.count_singleton, hyv, if_false, Nat.add_zero,
      mapFind_emplace]
    exact h y

theorem Counts.release {m : List (T × Int)} {o : T} {r : List T} (h : Counts m (o :: r)) :
    ∃ c, mapFind m o = some c ∧ (c - 1 = 1 ↔ r.count o = 0) ∧
      (c - 1 = 1 → Counts (mapErase m o) r) ∧
      (¬ c - 1 = 1 → Counts (mapUpdate m o (fun d => d - 1)) r) := by
  have ho := h o
  simp only [List.count_cons_self] at ho
  rw [if_neg (by omega)] at ho
  refine ⟨_, ho, by push_cast; omega, ?_, ?_⟩
  · intro hc y
    have hr : r.count o = 0 := by push_cast at hc; omega
    rw [mapFind_mapErase]
    by_cases hy : o = y
    · subst hy; simp [hr]
    · have hy2 : ¬ (o == y) = true := by simpa using hy
      rw [if_neg hy]
      have := h y
      simpa [List.count_cons, hy2] using this
  · intro hc y
    have hr : r.count o ≠ 0 := by push_cast at hc; omega
    rw [mapFind_mapUpdate]
    by_cases hy : o = y
    · subst hy
      rw [if_pos rfl, ho, if_neg hr]
      simp only [Option.map_some']
      exact congrArg some (by omega)
    · have hy2 : ¬ (o == y) = true := by simpa using hy
      rw [if_neg hy]
      have := h y
      simpa [List.count_cons, hy2] using this

/-! ## One insertion -/

omit [DecidableEq T] in
theorem storeAndAdvance_ok (s : FlyweightCircularBuffer T) (m : List (T × Int)) (i : Nat)
    (v : T) (h : s.mElementIdx ≠ intMax) :
    storeAndAdvance s m i v = .ok
      { s with
        mReferenceCountingMap := m
        mCircularBuffer := s.mCircularBuffer.set i (some v)
        mElementIdx := s.mElementIdx + 1 } := by
  unfold storeAndAdvance
  rw [if_neg h]

omit [DecidableEq T] in
theorem storeAndAdvance_overflow (s : FlyweightCircularBuffer T) (m : List (T × Int))
    (i : Nat) (v : T) (h : s.mElementIdx = intMax) :
    storeAndAdvance s m i v = .error .undefinedBehaviour := by
  unfold storeAndAdvance
  rw [if_pos h]

omit [DecidableEq T] in
theorem storeAndAdvance_frame {s s1 : FlyweightCircularBuffer T} {m : List (T × Int)}
    {i : Nat} {v : T} (h : storeAndAdvance s m i v = .ok s1) :
    s.mElementIdx ≠ intMax ∧ s1.mSize = s.mSize ∧ s1.mElementIdx = s.mElementIdx + 1 ∧
      s1.mCircularBuffer = s.mCircularBuffer.set i (some v) ∧
      s1.mReferenceCountingMap = m := by
  unfold storeAndAdvance at h
  by_cases hi : s.mElementIdx = intMax
  · rw [if_pos hi] at h; cases h
  · rw [if_neg hi] at h; cases h; exact ⟨hi, rfl, rfl, rfl, rfl⟩

theorem Insert_of_empty_slot (s : FlyweightCircularBuffer T) (v : T) (h0 : s.mSize ≠ 0)
    (hslot : 0 ≤ Int.tmod s.mElementIdx s.mSize)
    (hget : s.mCircularBuffer[(Int.tmod s.mElementIdx s.mSize).toNat]? = some none) :
    Insert s v = storeAndAdvance s
      (mapUpdate (emplace s.mReferenceCountingMap v 1) v (fun c => c + 1))
      (Int.tmod s.mElementIdx s.mSize).toNat v := by
  unfold Insert
  simp only [if_neg h0, if_neg (not_lt.mpr hslot), hget]

theorem Insert_of_full_slot (s : FlyweightCircularBuffer T) (v o : T) (c : Int)
    (h0 : s.mSize ≠ 0) (hslot : 0 ≤ Int.tmod s.mElementIdx s.mSize)
    (hget : s.mCircularBuffer[(Int.tmod s.mElementIdx s.mSize).toNat]? = some (some o))
    (hfind : mapFind (mapUpdate (emplace s.mReferenceCountingMap v 1) v (fun c => c + 1)) o
      = some c) :
    Insert s v =
      if c - 1 = 1 then
        if o = v then .error .undefinedBehaviour
        else storeAndAdvance s
          (mapErase (mapUpdate (emplace s.mReferenceCountingMap v 1) v (fun c => c + 1)) o)
          (Int.tmod s.mElementIdx s.mSize).toNat v
      else storeAndAdvance s
        (mapUpdate (mapUpdate (emplace s.mReferenceCountingMap v 1) v (fun c => c + 1)) o
          (fun d => d - 1))
        (Int.tmod s.mElementIdx s.mSize).toNat v := by
  unfold Insert
  simp only [if_neg h0, if_neg (not_lt.mpr hslot), hget, hfind]

theorem Insert_frame {s s1 : FlyweightCircularBuffer T} {v : T} (h : Insert s v = .ok s1) :
    s.mElementIdx ≠ intMax ∧ s1.mSize = s.mSize ∧ s1.mElementIdx = s.mElementIdx + 1 ∧
      s1.mCircularBuffer =
        s.mCircularBuffer.set (Int.tmod s.mElementIdx s.mSize).toNat (some v) := by
  unfold Insert at h
  simp only at h
  split at h
  · cases h
  · split at h
    · cases h
    · split at h
      · cases h
      · obtain ⟨h1, h2, h3, h4, _⟩ := storeAndAdvance_frame h
        exact ⟨h1, h2, h3, h4⟩
      · split at h
        · cases h
        · split at h
          · split at h
            · cases h
            · obtain ⟨h1, h2, h3, h4, _⟩ := storeAndAdvance_frame h
              exact ⟨h1, h2, h3, h4⟩
          · obtain ⟨h1, h2, h3, h4, _⟩ := storeAndAdvance_frame h
            exact ⟨h1, h2, h3, h4⟩

theorem Reached.init (N : Nat) :
    Reached N ([] : List T)
      { mSize := N, mElementIdx := 0, mReferenceCountingMap := [],
        mCircularBuffer := List.replicate N none } where
  size := rfl
  counter := by simp
  ringLength := by simp
  ringRecent := by intro m hm; simp at hm
  ringEmpty := by intro j _ hj; simp [List.getElem?_replicate, hj]
  keys := by simp
  counts := by intro x; simp [window]
  span := by unfold intMax; simp
  occupied := by simp [occupiedSlots]

theorem Reached.slot {N : Nat} {vs : List T} {s : FlyweightCircularBuffer T}
    (hN : 1 ≤ N) (h : Reached N vs s) :
    0 ≤ Int.tmod s.mElementIdx s.mSize ∧
      (Int.tmod s.mElementIdx s.mSize).toNat = vs.length % N := by
  rw [h.counter, h.size, slot_eq N vs.length hN]
  exact ⟨Int.natCast_nonneg _, Int.toNat_natCast _⟩

/-- In a reached state `Insert` runs up to its last two statements: it records the new value,
releases the value of the target slot, and goes on to the slot write and the increment of the
counter with a map that counts the values of the new window. -/
theorem Reached.insert_eq {N : Nat} {vs : List T} {s : FlyweightCircularBuffer T}
    (hN : 1 ≤ N) (h : Reached N vs s) (v : T) :
    ∃ m, Insert s v = storeAndAdvance s m (vs.length % N) v ∧
      (m.map Prod.fst).Nodup ∧ Counts m (window N (vs ++ [v])) := by
  obtain ⟨hslot, hto⟩ := h.slot hN
  have h0 : s.mSize ≠ 0 := by rw [h.size]; omega
  have hkeys : ((mapUpdate (emplace s.mReferenceCountingMap v 1) v
      (fun c => c + 1)).map Prod.fst).Nodup := by
    rw [keys_mapUpdate]; exact keys_emplace_nodup _ _ _ h.keys
  have hrec := h.counts.record v
  by_cases hkN : vs.length < N
  · -- the slot is empty
    have hget : s.mCircularBuffer[(Int.tmod s.mElementIdx s.mSize).toNat]? = some none := by
      rw [hto, Nat.mod_eq_of_lt hkN]; exact h.ringEmpty _ le_rfl hkN
    obtain ⟨hw1, hw2⟩ := window_snoc_lt N vs v hkN
    refine ⟨_, by rw [Insert_of_empty_slot s v h0 hslot hget, hto], hkeys, ?_⟩
    rw [hw2]; rw [hw1] at hrec; exact hrec
  · -- the slot holds the oldest value of the window
    obtain ⟨hm, t, hw1, hw2⟩ := window_snoc_ge N vs v hN (by omega)
    have hmod : (vs.length - N) % N = vs.length % N := by
      conv_rhs => rw [show vs.length = (vs.length - N) + N by omega]
      rw [Nat.add_mod_right]
    have hget : s.mCircularBuffer[(Int.tmod s.mElementIdx s.mSize).toNat]?
        = some (some vs[vs.length - N]) := by
      rw [hto, ← hmod]; exact h.ringRecent _ hm (by omega)
    rw [hw1] at hrec
    obtain ⟨c, hfind, hc, herase, hupdate⟩ := Counts.release hrec
    rw [Insert_of_full_slot s v _ c h0 hslot hget hfind, hto]
    by_cases hc1 : c - 1 = 1
    · have hov : ¬ vs[vs.length - N] = v := by
        intro e
        have := hc.mp hc1
        rw [List.count_eq_zero] at this
        exact this (by rw [e]; simp)
      rw [if_pos hc1, if_neg hov]
      refine ⟨_, rfl, keys_mapErase_nodup _ _ hkeys, ?_⟩
      rw [hw2]; exact herase hc1
    · rw [if_neg hc1]
      refine ⟨_, rfl, ?_, ?_⟩
      · rw [keys_mapUpdate]; exact hkeys
      · rw [hw2]; exact hupdate hc1

theorem Reached.slot_value {N : Nat} {vs : List T} {s : FlyweightCircularBuffer T}
    (hN : 1 ≤ N) (h : Reached N vs s) :
    s.mCircularBuffer[vs.length % N]? =
      some (if vs.length < N then none else (window N vs).head?) := by
  by_cases hk : vs.length < N
  · rw [if_pos hk, Nat.mod_eq_of_lt hk]
    exact h.ringEmpty _ le_rfl hk
  · rw [if_neg hk]
    obtain ⟨hm, t, hw1, _⟩ := window_snoc_ge N vs (vs.get ⟨0, by omega⟩) hN (by omega)
    have hmod : (vs.length - N) % N = vs.length % N := by
      conv_rhs => rw [show vs.length = (vs.length - N) + N by omega]
      rw [Nat.add_mod_right]
    rw [hw1, ← hmod, h.ringRecent _ hm (by omega)]
    rfl

theorem Reached.step {N : Nat} {vs : List T} {s : FlyweightCircularBuffer T}
    (hN : 1 ≤ N) (h : Reached N vs s) (v : T) (hk : (vs.length : Int) < intMax) :
    ∃ s1, Insert s v = .ok s1 ∧ Reached N (vs ++ [v]) s1 := by
  obtain ⟨m, hI, hkeys, hcounts⟩ := h.insert_eq hN v
  have hidx : s.mElementIdx ≠ intMax := by rw [h.counter]; omega
  rw [storeAndAdvance_ok s m _ v hidx] at hI
  refine ⟨_, hI, ?_⟩
  have hmodlt : vs.length % N < N := Nat.mod_lt _ (by omega)
  have hlt : vs.length % N < s.mCircularBuffer.length := by rw [h.ringLength]; exact hmodlt
  refine ⟨h.size, ?_, ?_, ?_, ?_, hkeys, hcounts, ?_, ?_⟩
  · show s.mElementIdx + 1 = ((vs ++ [v]).length : Int)
    rw [h.counter]; simp
  · show (s.mCircularBuffer.set (vs.length % N) (some v)).length = N
    rw [List.length_set]; exact h.ringLength
  · show ∀ (m : Nat) (hm : m < (vs ++ [v]).length), (vs ++ [v]).length ≤ m + N →
      (s.mCircularBuffer.set (vs.length % N) (some v))[m % N]? = some (some (vs ++ [v])[m])
    intro m hm hle
    simp only [List.length_append, List.length_singleton] at hm hle
    by_cases hmk : m = vs.length
    · subst hmk
      rw [List.getElem?_set_self hlt]
      simp
    · have hm2 : m < vs.length := by omega
      have hne : vs.length % N ≠ m % N := by
        intro e
        have h1 := Nat.sub_mod_eq_zero_of_mod_eq e
        rw [Nat.mod_eq_of_lt (by omega)] at h1
        omega
      rw [List.getElem?_set_ne hne, h.ringRecent m hm2 (by omega)]
      simp [List.getElem_append_left hm2]
  · show ∀ j : Nat, (vs ++ [v]).length ≤ j → j < N →
      (s.mCircularBuffer.set (vs.length % N) (some v))[j]? = some none
    intro j hj hjN
    simp only [List.length_append, List.length_singleton] at hj
    have hne : vs.length % N ≠ j := by
      rw [Nat.mod_eq_of_lt (by omega)]; omega
    rw [List.getElem?_set_ne hne]
    exact h.ringEmpty j (by omega) hjN
  · show (((vs ++ [v]).length : Nat) : Int) ≤ intMax
    simp only [List.length_append, List.length_singleton]
    push_cast
    omega
  · show ((s.mCircularBuffer.set (vs.length % N) (some v)).filter
      (fun p => p.isSome)).length = min (vs ++ [v]).length N
    have hval := h.slot_value hN
    rw [List.getElem?_eq_getElem hlt] at hval
    have hold := Option.some.inj hval
    have hprev := h.occupied
    unfold occupiedSlots at hprev
    rw [← List.countP_eq_length_filter, List.countP_set _ _ _ _ hlt, hold,
      List.countP_eq_length_filter, hprev]
    simp only [List.length_append, List.length_singleton, Option.isSome_some, if_true]
    by_cases hkN : vs.length < N
    · rw [if_pos hkN]
      simp
      omega
    · obtain ⟨_, t, hw1, _⟩ := window_snoc_ge N vs v hN (by omega)
      rw [if_neg hkN, hw1]
      simp
      omega

/-- In the state reached by `INT_MAX` insertions the increment of the counter is signed
overflow. -/
theorem Reached.insert_overflow {N : Nat} {vs : List T} {s : FlyweightCircularBuffer T}
    (hN : 1 ≤ N) (h : Reached N vs s) (v : T) (hk : (vs.length : Int) = intMax) :
    Insert s v = .error .undefinedBehaviour := by
  obtain ⟨m, hI, _, _⟩ := h.insert_eq hN v
  rw [hI]
  exact storeAndAdvance_overflow s m _ v (by rw [h.counter]; exact hk)

theorem Reached.insert_ok {N : Nat} {vs : List T} {s s1 : FlyweightCircularBuffer T} {v : T}
    (hN : 1 ≤ N) (h : Reached N vs s) (hI : Insert s v = .ok s1) :
    (vs.length : Int) < intMax ∧ Reached N (vs ++ [v]) s1 := by
  have hne := (Insert_frame hI).1
  rw [h.counter] at hne
  have hk : (vs.length : Int) < intMax := lt_of_le_of_ne h.span hne
  obtain ⟨s2, h2, hr⟩ := h.step hN v hk
  rw [hI] at h2
  cases h2
  exact ⟨hk, hr⟩

/-! ## Sequences of insertions -/

theorem reached_insertAll {N : Nat} (hN : 1 ≤ N) (vs : List T) :
    ∀ (us : List T) (s s1 : FlyweightCircularBuffer T), Reached N us s →
      insertAll s vs = .ok s1 → Reached N (us ++ vs) s1 := by
  induction vs with
  | nil =>
    intro us s s1 h hs
    simp only [FlyweightCircularBuffer.insertAll] at hs
    cases hs
    simpa using h
  | cons v vs ih =>
    intro us s s1 h hs
    simp only [FlyweightCircularBuffer.insertAll] at hs
    cases hI : Insert s v with
    | error e => rw [hI] at hs; cases hs
    | ok s2 =>
      rw [hI] at hs
      have := ih (us ++ [v]) s2 s1 (h.insert_ok hN hI).2 hs
      simpa using this

theorem reached_insertAll_ok {N : Nat} (hN : 1 ≤ N) (vs : List T) :
    ∀ (us : List T) (s : FlyweightCircularBuffer T), Reached N us s →
      us.length + vs.length ≤ 2147483647 → ∃ s1, insertAll s vs = .ok s1 := by
  induction vs with
  | nil => intro us s _ _; exact ⟨s, rfl⟩
  | cons v vs ih =>
    intro us s h hlen
    simp only [List.length_cons] at hlen
    obtain ⟨s2, h2, hr⟩ := h.step hN v (by unfold intMax; omega)
    obtain ⟨s1, h1⟩ := ih (us ++ [v]) s2 hr (by simp; omega)
    exact ⟨s1, by simp only [FlyweightCircularBuffer.insertAll, h2]; exact h1⟩

theorem run_eq (N : Nat) (vs : List T) :
    run (N : Int) vs = insertAll
      { mSize := N, mElementIdx := 0, mReferenceCountingMap := [],
        mCircularBuffer := List.replicate N none } vs := by
  unfold run new
  rw [if_neg (by omega)]
  simp

theorem run_reached {N : Nat} (hN : 1 ≤ N) {vs : List T} {s : FlyweightCircularBuffer T}
    (hs : run (N : Int) vs = .ok s) : Reached N vs s := by
  rw [run_eq] at hs
  simpa using reached_insertAll hN vs [] _ s (Reached.init N) hs

theorem run_ok {N : Nat} (hN : 1 ≤ N) (vs : List T) (hlen : vs.length ≤ 2147483647) :
    ∃ s, run (N : Int) vs = .ok s := by
  rw [run_eq]
  exact reached_insertAll_ok hN vs [] _ (Reached.init N) (by simpa using hlen)

/-! ## Queries -/

/-- C4. `Query` does not reject every negative index.  In a buffer of capacity 5: after the
insertion of 0, 1, ..., 6 the call `Query(-1)` returns 6; after the insertion of 7 alone the
call `Query(-5)` returns 7; and on the empty buffer `Query(-5)` dereferences the null pointer
of slot 0. -/
theorem C4_query_negative_index_not_rejected :
    (∃ s, run 5 [0, 1, 2, 3, 4, 5, 6] = .ok s ∧ Query s (-1) = .ok 6) ∧
    (∃ s, run 5 [7] = .ok s ∧ Query s (-5) = .ok 7) ∧
    (∃ s, run 5 ([] : List Nat) = .ok s ∧ Query s (-5) = .error .undefinedBehaviour) :=
  ⟨⟨_, rfl, rfl⟩, ⟨_, rfl, rfl⟩, ⟨_, rfl, rfl⟩⟩

/-! ## The stored values -/

theorem Reached.mem_keys {N : Nat} {vs : List T} {s : FlyweightCircularBuffer T}
    (h : Reached N vs s) (x : T) :
    mapFind s.mReferenceCountingMap x ≠ none ↔ x ∈ window N vs := by
  rw [h.counts x]
  by_cases h0 : (window N vs).count x = 0
  · rw [if_pos h0]; simpa using List.count_eq_zero.mp h0
  · rw [if_neg h0]
    simpa using fun hx => h0 (List.count_eq_zero.mpr hx)

theorem Reached.map_length {N : Nat} {vs : List T} {s : FlyweightCircularBuffer T}
    (h : Reached N vs s) :
    s.mReferenceCountingMap.length = (window N vs).toFinset.card := by
  have hperm : (s.mReferenceCountingMap.map Prod.fst).Perm (window N vs).dedup := by
    rw [List.perm_ext_iff_of_nodup h.keys (List.nodup_dedup _)]
    intro x
    rw [mem_keys_iff, h.mem_keys, List.mem_dedup]
  rw [List.card_toFinset, ← hperm.length_eq, List.length_map]

theorem Reached.stored_count_bounds {N : Nat} {vs : List T} {s : FlyweightCircularBuffer T}
    (h : Reached N vs s) (x : T) (c : Int) (hc : mapFind s.mReferenceCountingMap x = some c) :
    2 ≤ c ∧ c ≤ (N : Int) + 1 := by
  have hcount := h.counts x
  have hle : (window N vs).count x ≤ N :=
    calc (window N vs).count x ≤ (window N vs).length := List.count_le_length _ _
      _ = min vs.length N := window_length N vs
      _ ≤ N := Nat.min_le_right _ _
  by_cases h0 : (window N vs).count x = 0
  · rw [if_pos h0, hc] at hcount; cases hcount
  · rw [if_neg h0, hc] at hcount
    have := Option.some.inj hcount
    omega

/-- C7. `CountOccurrences` does not return the number of window positions holding the value.
In a buffer of capacity 5, after the single insertion of 7 the window holds 7 once and
`CountOccurrences(7)` returns 2; after the insertion of 7, 8, 7 the window holds 7 twice and
`CountOccurrences(7)` returns 3. -/
theorem C7_count_occurrences_is_one_above_window_count :
    (∃ s, run 5 [7] = .ok s ∧ (window 5 [7]).count 7 = 1 ∧ CountOccurrences s 7 = .ok 2) ∧
    (∃ s, run 5 [7, 8, 7] = .ok s ∧ (window 5 [7, 8, 7]).count 7 = 2 ∧
      CountOccurrences s 7 = .ok 3) :=
  ⟨⟨_, rfl, rfl, rfl⟩, ⟨_, rfl, rfl, rfl⟩⟩

/-- C8. The sum of `CountOccurrences` over the stored values is not the number of occupied
slots.  In a buffer of capacity 5, after the single insertion of 7 one slot is occupied and
the sum is 2; after the insertion of 1, 2, 3 three slots are occupied and the sum is 6. -/
theorem C8_sum_of_counts_exceeds_occupied_slots :
    (∃ s, run 5 [7] = .ok s ∧ NumberOfElements s = 1 ∧ occupiedSlots s = 1 ∧
      sumOfCountOccurrences s = 2) ∧
    (∃ s, run 5 [1, 2, 3] = .ok s ∧ NumberOfElements s = 3 ∧ occupiedSlots s = 3 ∧
      sumOfCountOccurrences s = 6) :=
  ⟨⟨_, rfl, rfl, rfl, rfl⟩, ⟨_, rfl, rfl, rfl, rfl⟩⟩

/-- C9. For every capacity `N` with `1 ≤ N ≤ INT_MAX - 2`, a sequence of at most `INT_MAX`
insertions into a fresh buffer reaches a state, and in every state reached by insertions and
for every value `v`, `CountOccurrences(v)` throws `std::out_of_range` exactly when
`Contains(v)` is false, and otherwise returns an integer that is at least 1 (and at most
`INT_MAX`). -/
theorem C9_count_occurrences_fails_iff_absent (N : Nat) (hN : 1 ≤ N)
    (hcap : (N : Int) + 2 ≤ intMax) (vs : List T) :
    ((vs.length : Int) ≤ intMax → ∃ s, run (N : Int) vs = .ok s) ∧
      ∀ s, run (N : Int) vs = .ok s → ∀ v : T,
        (CountOccurrences s v = .error .outOfRange ↔ Contains s v = false) ∧
        (Contains s v = true →
          ∃ c : Int, CountOccurrences s v = .ok c ∧ 1 ≤ c ∧ c ≤ intMax) := by
  refine ⟨fun hlen => run_ok hN vs (by unfold intMax at hlen; omega), ?_⟩
  intro s hs v
  have hr := run_reached hN hs
  have hc := hr.counts v
  have hb := hr.stored_count_bounds v
  unfold CountOccurrences Contains
  by_cases h0 : (window N vs).count v = 0
  · rw [if_pos h0] at hc
    simp [hc]
  · rw [if_neg h0] at hc
    have hb2 := hb _ hc
    simp only [hc, Option.isSome_some]
    refine ⟨by simp, fun _ => ⟨_, rfl, by omega, by omega⟩⟩

/-- Witness of C9: capacity 5, after the insertion of 7 and 8 the call `CountOccurrences(9)`
throws and `CountOccurrences(7)` returns. -/
theorem C9_count_occurrences_fails_iff_absent_witness :
    1 ≤ 5 ∧ ((5 : Nat) : Int) + 2 ≤ intMax ∧
      ∃ s, run ((5 : Nat) : Int) [7, 8] = .ok s ∧
        ((CountOccurrences s 9 = .error .outOfRange ↔ Contains s 9 = false) ∧
          (Contains s 9 = true →
            ∃ c : Int, CountOccurrences s 9 = .ok c ∧ 1 ≤ c ∧ c ≤ intMax)) ∧
        CountOccurrences s 9 = .error .outOfRange ∧
        ((CountOccurrences s 7 = .error .outOfRange ↔ Contains s 7 = false) ∧
          (Contains s 7 = true →
            ∃ c : Int, CountOccurrences s 7 = .ok c ∧ 1 ≤ c ∧ c ≤ intMax)) ∧
        Contains s 7 = true := by
  refine ⟨by decide, by decide, _, rfl, ?_, rfl, ?_, rfl⟩
  · exact (C9_count_occurrences_fails_iff_absent 5 (by decide) (by decide)
      ([7, 8] : List Nat)).2 _ rfl 9
  · exact (C9_count_occurrences_fails_iff_absent 5 (by decide) (by decide)
      ([7, 8] : List Nat)).2 _ rfl 7

/-! ## The element count -/

theorem Reached.ringCount_step {N : Nat} {vs : List T} {s s1 : FlyweightCircularBuffer T}
    {v : T} (hN : 1 ≤ N) (h : Reached N vs s)
    (hc : ∀ x, s.mCircularBuffer.count (some x) = (window N vs).count x)
    (hI : Insert s v = .ok s1) :
    ∀ x, s1.mCircularBuffer.count (some x) = (window N (vs ++ [v])).count x := by
  intro x
  obtain ⟨_, _, _, hring⟩ := Insert_frame hI
  rw [hring, (h.slot hN).2]
  have hlt : vs.length % N < s.mCircularBuffer.length := by
    rw [h.ringLength]; exact Nat.mod_lt _ (by omega)
  have hval := h.slot_value hN
  rw [List.getElem?_eq_getElem hlt] at hval
  have hval2 := Option.some.inj hval
  rw [List.count_set _ _ _ _ hlt, hval2, hc x]
  by_cases hk : vs.length < N
  · obtain ⟨hw1, hw2⟩ := window_snoc_lt N vs v hk
    rw [if_pos hk, hw2, hw1, List.count_append, List.count_singleton]
    simp
  · obtain ⟨hm, t, hw1, hw2⟩ := window_snoc_ge N vs v hN (by omega)
    rw [if_neg hk, hw2, hw1, List.count_append, List.count_singleton, List.count_cons]
    simp only [List.head?_cons, Option.some_beq_some]
    split <;> omega

theorem reached_ringCount {N : Nat} (hN : 1 ≤ N) (vs : List T) :
    ∀ (us : List T) (s s1 : FlyweightCircularBuffer T), Reached N us s →
      (∀ x, s.mCircularBuffer.count (some x) = (window N us).count x) →
      insertAll s vs = .ok s1 →
      ∀ x, s1.mCircularBuffer.count (some x) = (window N (us ++ vs)).count x := by
  induction vs with
  | nil =>
    intro us s s1 _ hc hs
    simp only [FlyweightCircularBuffer.insertAll] at hs
    cases hs
    simpa using hc
  | cons v vs ih =>
    intro us s s1 h hc hs
    simp only [FlyweightCircularBuffer.insertAll] at hs
    cases hI : Insert s v with
    | error e => rw [hI] at hs; cases hs
    | ok s2 =>
      rw [hI] at hs
      have := ih (us ++ [v]) s2 s1 (h.insert_ok hN hI).2 (h.ringCount_step hN hc hI) hs
      simpa using this

theorem run_ringCount {N : Nat} (hN : 1 ≤ N) {vs : List T} {s : FlyweightCircularBuffer T}
    (hs : run (N : Int) vs = .ok s) (x : T) :
    s.mCircularBuffer.count (some x) = (window N vs).count x := by
  rw [run_eq] at hs
  have := reached_ringCount hN vs [] _ s (Reached.init N)
    (by intro y; simp [window, List.count_replicate]) hs x
  simpa using this


/-! ## Construction and capacity -/

/-- C12, as stated, fails: the construction with capacity 0 succeeds and yields an instance
with an empty ring. -/
theorem C12_construction_with_capacity_zero_succeeds :
    (new 0 : Except Failure (FlyweightCircularBuffer Nat)) = .ok
      { mSize := 0, mElementIdx := 0, mReferenceCountingMap := [], mCircularBuffer := [] } :=
  rfl

/-- C12, amended. The constructor does not validate the capacity: for every `N < 0` the
construction fails with the `std::length_error` of the vector constructor and yields no
instance, and for every `N ≥ 0` it succeeds with `Size() = N` and a ring of `N` slots; on
the instance of capacity 0 every `Insert` is without defined behaviour. -/
theorem C12_construction_fails_only_below_zero (N : Int) :
    (N < 0 → (new N : Except Failure (FlyweightCircularBuffer T)) = .error .lengthError) ∧
      (0 ≤ N → ∃ s : FlyweightCircularBuffer T, new N = .ok s ∧ Size s = N ∧
        (s.mCircularBuffer.length : Int) = N) ∧
      (N = 0 → ∀ s : FlyweightCircularBuffer T, new N = .ok s →
        ∀ v : T, Insert s v = .error .undefinedBehaviour) := by
  refine ⟨?_, ?_, ?_⟩
  · intro h
    unfold new
    rw [if_pos h]
  · intro h
    unfold new
    rw [if_neg (by omega)]
    refine ⟨_, rfl, rfl, ?_⟩
    simp only [List.length_replicate]
    omega
  · intro h s hs v
    subst h
    unfold new at hs
    rw [if_neg (by omega)] at hs
    cases hs
    unfold Insert
    simp

/-- Witness of C12, amended: the capacities -1, 5 and 0. -/
theorem C12_construction_fails_only_below_zero_witness :
    ((-1 : Int) < 0 ∧
      (new (-1) : Except Failure (FlyweightCircularBuffer Nat)) = .error .lengthError) ∧
    ((0 : Int) ≤ 5 ∧ ∃ s : FlyweightCircularBuffer Nat, new 5 = .ok s ∧ Size s = 5 ∧
      (s.mCircularBuffer.length : Int) = 5) ∧
    ((0 : Int) = 0 ∧ ∃ s : FlyweightCircularBuffer Nat, new 0 = .ok s ∧
      Insert s 7 = .error .undefinedBehaviour) := by
  refine ⟨⟨by decide, ?_⟩, ⟨by decide, ?_⟩, ⟨rfl, _, rfl, ?_⟩⟩
  · exact (C12_construction_fails_only_below_zero (-1)).1 (by decide)
  · exact (C12_construction_fails_only_below_zero 5).2.1 (by decide)
  · exact (C12_construction_fails_only_below_zero 0).2.2 rfl _ rfl 7

/-- C14. For every capacity `N ≥ 1` the construction succeeds, and the new buffer has
`Size() = N`, `NumberOfElements() = 0`, `DistinctObjectCount() = 0`, `Contains(v)` false for
every value `v`, and a ring of `N` slots that are all null. -/
theorem C14_fresh_buffer_is_empty (N : Nat) (hN : 1 ≤ N) :
    ∃ s : FlyweightCircularBuffer T, new (N : Int) = .ok s ∧
      Size s = (N : Int) ∧ NumberOfElements s = 0 ∧ DistinctObjectCount s = 0 ∧
      (∀ v : T, Contains s v = false) ∧
      s.mCircularBuffer.length = N ∧ (∀ slot ∈ s.mCircularBuffer, slot = none) ∧
      occupiedSlots s = 0 := by
  unfold new
  rw [if_neg (by omega)]
  refine ⟨_, rfl, rfl, ?_, ?_, fun v => rfl, by simp, ?_, ?_⟩
  · unfold NumberOfElements
    simp only
    omega
  · unfold DistinctObjectCount wrapInt
    simp
  · intro slot hslot
    exact List.eq_of_mem_replicate hslot
  · simp [occupiedSlots]

/-- Witness of C14: capacity 5. -/
theorem C14_fresh_buffer_is_empty_witness :
    1 ≤ 5 ∧
      ∃ s : FlyweightCircularBuffer Nat, new ((5 : Nat) : Int) = .ok s ∧
        Size s = ((5 : Nat) : Int) ∧ NumberOfElements s = 0 ∧ DistinctObjectCount s = 0 ∧
        (∀ v : Nat, Contains s v = false) ∧
        s.mCircularBuffer.length = 5 ∧ (∀ slot ∈ s.mCircularBuffer, slot = none) ∧
        occupiedSlots s = 0 :=
  ⟨by decide, C14_fresh_buffer_is_empty 5 (by decide)⟩


/-! ## `Insert` and the counter -/

theorem Reached.slot_mem {N : Nat} {vs : List T} {s : FlyweightCircularBuffer T}
    (hN : 1 ≤ N) (hs : run (N : Int) vs = .ok s) (o : T) (ho : some o ∈ s.mCircularBuffer) :
    Contains s o = true := by
  have hr := run_reached hN hs
  have hc := run_ringCount hN hs o
  have hpos : 0 < s.mCircularBuffer.count (some o) := List.count_pos_iff.mpr ho
  have hmem : o ∈ window N vs := List.count_pos_iff.mp (by omega)
  unfold Contains
  rw [Option.isSome_iff_ne_none, hr.mem_keys]
  exact hmem

/-- C13, as stated, fails: in a buffer of capacity 3, the state reached by `INT_MAX`
insertions has the counter `mElementIdx = INT_MAX`, and in the next `Insert` the statement
`++mElementIdx` is signed overflow, so the call is without defined behaviour. -/
theorem C13_insert_at_int_max_is_undefined :
    ∃ s, run 3 (List.replicate 2147483647 (0 : Nat)) = .ok s ∧
      s.mElementIdx = intMax ∧ Insert s 0 = .error .undefinedBehaviour := by
  have hlen : (List.replicate 2147483647 (0 : Nat)).length = 2147483647 :=
    List.length_replicate _ _
  obtain ⟨s, hs⟩ := run_ok (N := 3) (by decide) (List.replicate 2147483647 (0 : Nat))
    (by rw [hlen])
  have hr := run_reached (N := 3) (by decide) hs
  have hk : (((List.replicate 2147483647 (0 : Nat)).length : Nat) : Int) = intMax := by
    rw [hlen]; rfl
  exact ⟨s, hs, by rw [hr.counter, hk], hr.insert_overflow (by decide) 0 hk⟩

/-- C13, amended. For every capacity `N` with `1 ≤ N ≤ INT_MAX - 2`, in every state reached
from a fresh buffer by fewer than `INT_MAX` insertions every stored count can be incremented
within `int`, and for every value `x`, `Insert(x)` succeeds.  For every capacity `N ≥ 1` and in every state reached by insertions, the subscript
`mElementIdx % mSize` lies in `[0, N)`, every slot that is not null references a value found
in the map, and `Insert` never fails its assertion. -/
theorem C13_insert_succeeds_below_int_max (N : Nat) (hN : 1 ≤ N) (vs : List T) :
    ((N : Int) + 2 ≤ intMax → (vs.length : Int) < intMax →
        ∃ s, run (N : Int) vs = .ok s ∧
          (∀ (y : T) (c : Int), CountOccurrences s y = .ok c → c + 1 ≤ intMax) ∧
          ∀ x : T, ∃ s1, Insert s x = .ok s1) ∧
      (∀ s, run (N : Int) vs = .ok s →
        (0 ≤ Int.tmod s.mElementIdx s.mSize ∧ Int.tmod s.mElementIdx s.mSize < (N : Int)) ∧
        (∀ o : T, some o ∈ s.mCircularBuffer → Contains s o = true) ∧
        ∀ x : T, Insert s x ≠ .error .brokenInvariant) := by
  constructor
  · intro hcap hlen
    have hlen2 := hlen
    unfold intMax at hlen2
    obtain ⟨s, hs⟩ := run_ok hN vs (by omega)
    have hr := run_reached hN hs
    refine ⟨s, hs, ?_, fun x => ?_⟩
    · intro y c hc
      unfold CountOccurrences at hc
      cases hf : mapFind s.mReferenceCountingMap y with
      | none => rw [hf] at hc; cases hc
      | some d =>
        rw [hf] at hc
        cases hc
        have := hr.stored_count_bounds y _ hf
        omega
    · obtain ⟨s1, h1, _⟩ := hr.step hN x hlen
      exact ⟨s1, h1⟩
  · intro s hs
    have hr := run_reached hN hs
    refine ⟨?_, fun o ho => Reached.slot_mem hN hs o ho, ?_⟩
    · rw [hr.counter, hr.size, slot_eq N vs.length hN]
      have hmod : vs.length % N < N := Nat.mod_lt _ (by omega)
      omega
    · intro x hbad
      by_cases hk : (vs.length : Int) < intMax
      · obtain ⟨s1, h1, _⟩ := hr.step hN x hk
        rw [h1] at hbad
        cases hbad
      · rw [hr.insert_overflow hN x (le_antisymm hr.span (not_lt.mp hk))] at hbad
        cases hbad

/-- Witness of C13, amended: capacity 5, the full buffer 1, 2, 3, 4, 5 and `Insert(6)`. -/
theorem C13_insert_succeeds_below_int_max_witness :
    1 ≤ 5 ∧ ((5 : Nat) : Int) + 2 ≤ intMax ∧ (([1, 2, 3, 4, 5].length : Nat) : Int) < intMax ∧
      ∃ s, run ((5 : Nat) : Int) [1, 2, 3, 4, 5] = .ok s ∧
        (∀ (y : Nat) (c : Int), CountOccurrences s y = .ok c → c + 1 ≤ intMax) ∧
        (∃ s1, Insert s 6 = .ok s1) ∧
        (0 ≤ Int.tmod s.mElementIdx s.mSize ∧
          Int.tmod s.mElementIdx s.mSize < ((5 : Nat) : Int)) ∧
        (some 1 ∈ s.mCircularBuffer → Contains s 1 = true) ∧
        Insert s 6 ≠ .error .brokenInvariant := by
  refine ⟨by decide, by decide, by decide, ?_⟩
  obtain ⟨h1, h2⟩ := C13_insert_succeeds_below_int_max 5 (by decide)
    ([1, 2, 3, 4, 5] : List Nat)
  obtain ⟨s, hs, hc, hx⟩ := h1 (by decide) (by decide)
  exact ⟨s, hs, hc, hx 6, (h2 s hs).1, (h2 s hs).2.1 1, (h2 s hs).2.2 6⟩

/-! ## The three counts -/

/-- C16. For every capacity `N` with `1 ≤ N ≤ INT_MAX - 2`, in every state reached by
insertions in which the slot about to be overwritten, `mCircularBuffer[mElementIdx % mSize]`,
holds the value `v`: when fewer than `INT_MAX` insertions have happened `Insert(v)` succeeds,
and whenever it returns it has not removed `v`: afterwards `Contains(v)` is true,
`CountOccurrences(v)` returns what it returned before the call (a count that the increment
inside `Insert` keeps within `int`), `DistinctObjectCount()` is unchanged, and the
overwritten slot references `v`. -/
theorem C16_self_eviction_keeps_the_entry (N : Nat) (hN : 1 ≤ N)
    (hcap : (N : Int) + 2 ≤ intMax) (vs : List T)
    (s : FlyweightCircularBuffer T) (hs : run (N : Int) vs = .ok s) (v : T)
    (hold : s.mCircularBuffer[(Int.tmod s.mElementIdx s.mSize).toNat]? = some (some v)) :
    ((vs.length : Int) < intMax → ∃ s1, Insert s v = .ok s1) ∧
      ∀ s1, Insert s v = .ok s1 →
        Contains s v = true ∧ Contains s1 v = true ∧
        (∃ c : Int, CountOccurrences s v = .ok c ∧ CountOccurrences s1 v = .ok c ∧
          c + 1 ≤ intMax) ∧
        DistinctObjectCount s1 = DistinctObjectCount s ∧
        s1.mCircularBuffer[(Int.tmod s.mElementIdx s.mSize).toNat]? = some (some v) := by
  have hr := run_reached hN hs
  refine ⟨fun hk => ?_, ?_⟩
  · obtain ⟨s1, hI, _⟩ := hr.step hN v hk
    exact ⟨s1, hI⟩
  intro s1 hI
  have hr1 := (hr.insert_ok hN hI).2
  have hto := (hr.slot hN).2
  have hval := hr.slot_value hN
  rw [hto] at hold
  rw [hold] at hval
  have hk : ¬ vs.length < N := by
    intro hk
    rw [if_pos hk] at hval
    cases hval
  rw [if_neg hk] at hval
  obtain ⟨hm, t, hw1, hw2⟩ := window_snoc_ge N vs v hN (by omega)
  have hhead : vs[vs.length - N] = v := by
    rw [hw1] at hval
    simpa using hval.symm
  rw [hhead] at hw1
  have hc := hr.counts v
  have hc1 := hr1.counts v
  have hb := hr.stored_count_bounds v
  rw [hw1] at hc
  rw [hw2] at hc1
  simp only [List.count_cons_self, List.count_append, List.count_singleton_self,
    List.count_nil, Nat.zero_add] at hc hc1
  rw [if_neg (by omega)] at hc hc1
  have hb2 := hb _ hc
  refine ⟨?_, ?_, ?_, ?_, ?_⟩
  · unfold Contains; rw [hc]; rfl
  · unfold Contains; rw [hc1]; rfl
  · refine ⟨1 + ((List.count v t + 1 : Nat) : Int), ?_, ?_, by omega⟩
    · unfold CountOccurrences; rw [hc]
    · unfold CountOccurrences; rw [hc1]
  · unfold DistinctObjectCount
    rw [hr.map_length, hr1.map_length, hw1, hw2]
    congr 3
    ext x
    simp only [List.mem_toFinset, List.mem_append, List.mem_cons, List.not_mem_nil, or_false]
    exact or_comm
  · rw [(Insert_frame hI).2.2.2, hto]
    exact List.getElem?_set_self (by rw [hr.ringLength]; exact Nat.mod_lt _ (by omega))

/-- Witness of C16: capacity 5 with the value 5 in every slot, and `Insert(5)`, after which
`DistinctObjectCount()` is still 1. -/
theorem C16_self_eviction_keeps_the_entry_witness :
    1 ≤ 5 ∧ ((5 : Nat) : Int) + 2 ≤ intMax ∧
      ∃ s s1, run ((5 : Nat) : Int) [5, 5, 5, 5, 5] = .ok s ∧
        s.mCircularBuffer[(Int.tmod s.mElementIdx s.mSize).toNat]? = some (some 5) ∧
        DistinctObjectCount s = 1 ∧ Insert s 5 = .ok s1 ∧
        (Contains s 5 = true ∧ Contains s1 5 = true ∧
          (∃ c : Int, CountOccurrences s 5 = .ok c ∧ CountOccurrences s1 5 = .ok c ∧
            c + 1 ≤ intMax) ∧
          DistinctObjectCount s1 = DistinctObjectCount s ∧
          s1.mCircularBuffer[(Int.tmod s.mElementIdx s.mSize).toNat]? = some (some 5)) := by
  refine ⟨by decide, by decide,
    ⟨5, 5, [(5, 6)], [some 5, some 5, some 5, some 5, some 5]⟩,
    ⟨5, 6, [(5, 6)], [some 5, some 5, some 5, some 5, some 5]⟩, rfl, rfl, rfl, rfl, ?_⟩
  exact (C16_self_eviction_keeps_the_entry 5 (by decide) (by decide)
    ([5, 5, 5, 5, 5] : List Nat)
    ⟨5, 5, [(5, 6)], [some 5, some 5, some 5, some 5, some 5]⟩ (by rfl) 5 (by rfl)).2
    ⟨5, 6, [(5, 6)], [some 5, some 5, some 5, some 5, some 5]⟩ (by rfl)

/-! ## The stored count -/

theorem contains_iff_of_ringCount {N : Nat} {vs : List T} {s : FlyweightCircularBuffer T}
    (h : Reached N vs s)
    (hc : ∀ x, s.mCircularBuffer.count (some x) = (window N vs).count x) (v : T) :
    Contains s v = true ↔ 0 < s.mCircularBuffer.count (some v) := by
  unfold Contains
  rw [Option.isSome_iff_ne_none, h.mem_keys, hc v, List.count_pos_iff]

/-- C18. For every capacity `N` with `1 ≤ N ≤ INT_MAX - 2`, a sequence of at most `INT_MAX`
insertions into a fresh buffer reaches a state, and in every state reached by insertions:
the integer that `CountOccurrences(v)` returns for a stored value `v` is one more than the
number of ring slots that reference `v`, hence at least 2 (and at most `INT_MAX - 1`); a
value is stored exactly while some slot references it; and `Insert` removes a stored value
exactly when one more than the number of slots referencing it has dropped to 1. -/
theorem C18_stored_count_is_one_above_slot_count (N : Nat) (hN : 1 ≤ N)
    (hcap : (N : Int) + 2 ≤ intMax) (vs : List T) :
    ((vs.length : Int) ≤ intMax → ∃ s, run (N : Int) vs = .ok s) ∧
      ∀ s, run (N : Int) vs = .ok s →
        (∀ (v : T) (c : Int), CountOccurrences s v = .ok c →
          c = 1 + (s.mCircularBuffer.count (some v) : Int) ∧ 2 ≤ c ∧ c + 1 ≤ intMax) ∧
        (∀ v : T, Contains s v = true ↔ 0 < s.mCircularBuffer.count (some v)) ∧
        (∀ (x : T) (s1 : FlyweightCircularBuffer T), Insert s x = .ok s1 →
          ∀ y : T, Contains s y = true →
            (Contains s1 y = false ↔ 1 + (s1.mCircularBuffer.count (some y) : Int) = 1)) := by
  refine ⟨fun hlen => run_ok hN vs (by unfold intMax at hlen; omega), ?_⟩
  intro s hs
  have hr := run_reached hN hs
  have hrc := run_ringCount hN hs
  refine ⟨?_, contains_iff_of_ringCount hr hrc, ?_⟩
  · intro v c hc
    have hcount := hr.counts v
    have hb := hr.stored_count_bounds v
    unfold CountOccurrences at hc
    by_cases h0 : (window N vs).count v = 0
    · rw [if_pos h0] at hcount
      rw [hcount] at hc
      cases hc
    · rw [if_neg h0] at hcount
      have hb2 := hb _ hcount
      rw [hcount] at hc
      cases hc
      rw [hrc v]
      exact ⟨rfl, by omega, by omega⟩
  · intro x s1 hI y _
    have h1 := contains_iff_of_ringCount (hr.insert_ok hN hI).2
      (hr.ringCount_step hN hrc hI) y
    constructor
    · intro hf
      have : ¬ 0 < s1.mCircularBuffer.count (some y) := by
        rw [← h1, hf]; simp
      omega
    · intro h0
      have : ¬ 0 < s1.mCircularBuffer.count (some y) := by omega
      rw [← h1] at this
      simpa using this

/-- Witness of C18: capacity 5, after the insertion of 7, 8, 7 two slots reference 7 and the
stored count of 7 is 3. -/
theorem C18_stored_count_is_one_above_slot_count_witness :
    1 ≤ 5 ∧ ((5 : Nat) : Int) + 2 ≤ intMax ∧
      ∃ s, run ((5 : Nat) : Int) [7, 8, 7] = .ok s ∧ CountOccurrences s 7 = .ok 3 ∧
        ((3 : Int) = 1 + (s.mCircularBuffer.count (some 7) : Int) ∧ (2 : Int) ≤ 3 ∧
          (3 : Int) + 1 ≤ intMax) ∧
        (Contains s 8 = true ↔ 0 < s.mCircularBuffer.count (some 8)) := by
  refine ⟨by decide, by decide, _, rfl, rfl, ?_, ?_⟩
  · exact ((C18_stored_count_is_one_above_slot_count 5 (by decide) (by decide)
      ([7, 8, 7] : List Nat)).2 _ rfl).1 7 3 rfl
  · exact ((C18_stored_count_is_one_above_slot_count 5 (by decide) (by decide)
      ([7, 8, 7] : List Nat)).2 _ rfl).2.1 8

/-! ## Reclaiming storage -/

/-- The test `BadQueryIdx_Throws`. -/
theorem unit_test_BadQueryIdx_Throws :
    (∃ s, run 5 ([] : List Int) = .ok s ∧ Query s 0 = .error .outOfRange) ∧
    (∃ s, run 5 [(1 : Int)] = .ok s ∧ Query s 0 = .ok 1 ∧ Query s 1 = .error .outOfRange) ∧
    (∃ s, run 5 [(1 : Int), 0, 1, 2] = .ok s ∧ Query s 4 = .error .outOfRange ∧
      Query s 5 = .error .outOfRange) :=
  ⟨⟨_, rfl, rfl⟩, ⟨_, rfl, rfl, rfl⟩, ⟨_, rfl, rfl, rfl⟩⟩

/-- The test `OutOfBoundsQueryIdx_Throws`. -/
theorem unit_test_OutOfBoundsQueryIdx_Throws :
    ∃ s, run 5 ([] : List Int) = .ok s ∧ Query s (-1) = .error .outOfRange ∧
      Query s 5 = .error .outOfRange :=
  ⟨_, rfl, rfl, rfl⟩

/-- The test `InsertMoreThanSizeElements_IndicesWrapAroundCorrectly` on integers. -/
theorem unit_test_InsertMoreThanSizeElements :
    ∃ s, run 5 (List.range 203) = .ok s ∧
      Query s 0 = .ok 198 ∧ Query s 1 = .ok 199 ∧ Query s 2 = .ok 200 ∧ Query s 3 = .ok 201 ∧
      Query s 4 = .ok 202 :=
  ⟨_, rfl, rfl, rfl, rfl, rfl, rfl⟩

/-- The test `Flyweight_HandleRepeats`. -/
theorem unit_test_Flyweight_HandleRepeats :
    (∃ s, run 5 [(100 : Nat)] = .ok s ∧ DistinctObjectCount s = 1) ∧
    (∃ s, run 5 [(100 : Nat), 100, 100, 100, 100] = .ok s ∧ DistinctObjectCount s = 1) ∧
    (∃ s, run 5 ([100, 100, 100, 100, 100] ++ List.range 100) = .ok s ∧
      DistinctObjectCount s = 5) :=
  ⟨⟨_, rfl, rfl⟩, ⟨_, rfl, rfl⟩, ⟨_, rfl, rfl⟩⟩

/-- The test `InsertRepeatedAfterFull_StillNoExtraCopies`. -/
theorem unit_test_InsertRepeatedAfterFull :
    (∃ s, run 5 ["1", "2", "3", "4", "5"] = .ok s ∧ DistinctObjectCount s = 5) ∧
    (∃ s, run 5 ["1", "2", "3", "4", "5", "5"] = .ok s ∧ DistinctObjectCount s = 4) ∧
    (∃ s, run 5 ["1", "2", "3", "4", "5", "5", "5"] = .ok s ∧ DistinctObjectCount s = 3) ∧
    (∃ s, run 5 ["1", "2", "3", "4", "5", "5", "5", "5"] = .ok s ∧
      DistinctObjectCount s = 2) ∧
    (∃ s, run 5 ["1", "2", "3", "4", "5", "5", "5", "5", "5"] = .ok s ∧
      DistinctObjectCount s = 1) ∧
    (∃ s, run 5 ["1", "2", "3", "4", "5", "5", "5", "5", "5", "5"] = .ok s ∧
      DistinctObjectCount s = 1) ∧
    (∃ s, run 5 ["1", "2", "3", "4", "5", "5", "5", "5", "5", "5", "1"] = .ok s ∧
      DistinctObjectCount s = 2) :=
  ⟨⟨_, rfl, rfl⟩, ⟨_, rfl, rfl⟩, ⟨_, rfl, rfl⟩, ⟨_, rfl, rfl⟩, ⟨_, rfl, rfl⟩, ⟨_, rfl, rfl⟩,
    ⟨_, rfl, rfl⟩⟩

/-- The string test `InsertMoreThanSizeElements_IndicesWrapAroundCorrectly`. -/
theorem unit_test_InsertMoreThanSizeElements_strings :
    ∃ s, run 5 ["0", "1", "2", "3", "4", "100"] = .ok s ∧ DistinctObjectCount s = 5 ∧
      Contains s "0" = false ∧ Contains s "100" = true ∧ Query s 0 = .ok "1" ∧
      Query s 4 = .ok "100" :=
  ⟨_, rfl, rfl, rfl, rfl, rfl, rfl⟩

end FlyweightCircularBuffer
